import Mathlib

/-!
Verification of the commit-selection and report-rendering logic of the
git-report-generator repository (packages `internal/git`, `internal/config`,
`internal/generator`).

Go strings are modelled as lists of characters (`Str`), `time.Time` values as
integer nanosecond timestamps, and `float64` configuration values as rationals
(finite values; the NaN/Inf corners of IEEE floats are outside this model).
The external collaborators (go-git log walking, gofpdf page layout,
encoding/json text serialization, the filesystem) are modelled at their
interfaces: the log walk is an input list of raw commits, the PDF layer is a
deep-embedded list of emitted layout operations, and JSON files are passed
around as parsed JSON values.
-/

namespace GitReport

/-- Go strings, modelled as lists of characters. -/
abbrev Str := List Char

/-- `unicode.IsSpace` as used by `strings.TrimSpace`, restricted to the
whitespace characters representable in Latin-1 (Go additionally folds the
rarer Unicode space classes, which never occur in the claims). -/
def goIsSpace (c : Char) : Bool :=
  c == ' ' || c == '\t' || c == '\n' || c == '\x0b' || c == '\x0c' || c == '\r' ||
  c == '\u0085' || c == ' '

/-- Left half of `strings.TrimSpace`: drop leading whitespace. -/
def trimLeft (s : Str) : Str := s.dropWhile goIsSpace

/-- Right half of `strings.TrimSpace`: drop trailing whitespace. -/
def trimRight : Str → Str
  | [] => []
  | c :: cs =>
    match trimRight cs with
    | [] => if goIsSpace c then [] else [c]
    | r => c :: r

/-- `strings.TrimSpace`: drop leading and trailing whitespace. -/
def trimSpace (s : Str) : Str := trimRight (trimLeft s)

/-- `strings.Split(s, "\n")`: split into lines at newline separators.
The result is always non-empty; an empty input yields one empty chunk. -/
def splitNL : Str → List Str
  | [] => [[]]
  | c :: cs =>
    if c = '\n' then [] :: splitNL cs
    else (c :: (splitNL cs).headD []) :: (splitNL cs).tail

/-- `strings.Join(ls, " ")`. -/
def joinSpace : List Str → Str
  | [] => []
  | [l] => l
  | l :: l2 :: ls => l ++ ' ' :: joinSpace (l2 :: ls)

/-- `strings.Join(ls, "\n")`. -/
def joinNL : List Str → Str
  | [] => []
  | [l] => l
  | l :: l2 :: ls => l ++ '\n' :: joinNL (l2 :: ls)

/-- `parseCommitMessage` from `internal/git`: trim the whole message, split it
into lines, return the trimmed first line as the title and the remaining
non-blank lines, trimmed and joined with single spaces, as the description.
(The Go guard `len(lines) > 1` is subsumed here: for a single line the
description computation yields the empty join.) -/
def parseCommitMessage (fullMessage : Str) : Str × Str :=
  match splitNL (trimSpace fullMessage) with
  | [] => ([], [])
  | l0 :: rest =>
    (trimSpace l0, joinSpace ((rest.map trimSpace).filter (fun l => !l.isEmpty)))

/-! ## Commit selector (`internal/git`, `GetCommits`) -/

/-- One nanosecond-resolution day, the value of `24 * time.Hour`. -/
def oneDay : Int := 24 * 3600 * 1000000000

/-- The fields of a `*object.Commit` read while walking the log: full content
hash, author timestamp (`c.Author.When`, nanoseconds), author name and email,
and the raw commit message. -/
structure RawCommit where
  hash : Str
  authorWhen : Int
  authorName : Str
  authorEmail : Str
  rawMessage : Str
deriving DecidableEq, Repr

/-- The `Commit` record produced by `GetCommits`. -/
structure Commit where
  sha : Str
  date : Int
  message : Str
  description : Str
  author : Str
  authorEmail : Str
deriving DecidableEq, Repr

/-- `strings.EqualFold`, at ASCII granularity of Unicode simple folding. -/
def goEqualFold (a b : Str) : Bool := a.map Char.toLower == b.map Char.toLower

/-- The per-commit filter of `GetCommits`: the commit is skipped when
`c.Author.When.Before(fromDate)` or `c.Author.When.After(toDate.Add(24h))`,
and then skipped unless `strings.EqualFold(c.Author.Email, authorEmail)`. -/
def keepCommit (fromDate toDate : Int) (authorEmail : Str) (c : RawCommit) : Bool :=
  !(decide (c.authorWhen < fromDate) || decide (toDate + oneDay < c.authorWhen)) &&
  goEqualFold c.authorEmail authorEmail

/-- Construction of the `Commit` record from a walked commit: 8-character
short SHA, author timestamp, parsed message/description, author identity. -/
def mkCommit (c : RawCommit) : Commit :=
  { sha := c.hash.take 8
    date := c.authorWhen
    message := (parseCommitMessage c.rawMessage).1
    description := (parseCommitMessage c.rawMessage).2
    author := c.authorName
    authorEmail := c.authorEmail }

/-- One pass of the inner loop of the sort in `GetCommits` (`for j := i+1`),
rendered on lists: the accumulator plays `commits[i]`, and whenever
`commits[i].Date.Before(commits[j].Date)` the two are swapped.  It returns the
final value left at position `i` together with the (possibly updated) tail. -/
def bubbleMax : Commit → List Commit → Commit × List Commit
  | x, [] => (x, [])
  | x, y :: ys =>
    if x.date < y.date then
      ((bubbleMax y ys).1, x :: (bubbleMax y ys).2)
    else
      ((bubbleMax x ys).1, y :: (bubbleMax x ys).2)

theorem bubbleMax_snd_length (ys : List Commit) (x : Commit) :
    ((bubbleMax x ys).2).length = ys.length := by
  induction ys generalizing x with
  | nil => rfl
  | cons y ys ih =>
    by_cases h : x.date < y.date <;> simp [bubbleMax, h, ih]

/-- The in-place double loop sorting `commits` by date, newest first
(lines 126-132 of the git service), rendered on lists: each outer iteration
fixes position `i` at the maximum of the remaining suffix. -/
def sortCommits : List Commit → List Commit
  | [] => []
  | x :: xs => (bubbleMax x xs).1 :: sortCommits (bubbleMax x xs).2
termination_by l => l.length
decreasing_by simp [bubbleMax_snd_length]

/-- `GetCommits` on the success path: the walked commits (in whatever order
the log iterator yields them) are filtered by date range and author, turned
into `Commit` records, and sorted newest-first.  Branch resolution and log
iteration belong to the external go-git layer; their failures abort before
any of this logic runs. -/
def getCommits (walk : List RawCommit) (fromDate toDate : Int) (authorEmail : Str) :
    List Commit :=
  sortCommits ((walk.filter (keepCommit fromDate toDate authorEmail)).map mkCommit)

theorem bubbleMax_perm (ys : List Commit) (x : Commit) :
    List.Perm ((bubbleMax x ys).1 :: (bubbleMax x ys).2) (x :: ys) := by
  induction ys generalizing x with
  | nil => exact List.Perm.refl _
  | cons y ys ih =>
    by_cases h : x.date < y.date
    · simp only [bubbleMax, if_pos h]
      exact (List.Perm.swap _ _ _).trans ((ih y).cons x)
    · simp only [bubbleMax, if_neg h]
      exact ((List.Perm.swap _ _ _).trans ((ih x).cons y)).trans (List.Perm.swap _ _ _)

theorem sortCommits_perm (l : List Commit) : List.Perm (sortCommits l) l := by
  induction l using sortCommits.induct with
  | case1 => rw [sortCommits]
  | case2 x xs ih =>
    rw [sortCommits]
    exact (ih.cons _).trans (bubbleMax_perm xs x)

theorem bubbleMax_fst_max (ys : List Commit) (x : Commit) :
    x.date ≤ (bubbleMax x ys).1.date ∧
    ∀ c ∈ (bubbleMax x ys).2, c.date ≤ (bubbleMax x ys).1.date := by
  induction ys generalizing x with
  | nil => exact ⟨le_refl _, by simp [bubbleMax]⟩
  | cons y ys ih =>
    by_cases h : x.date < y.date
    · simp only [bubbleMax, if_pos h]
      refine ⟨le_of_lt (lt_of_lt_of_le h (ih y).1), ?_⟩
      intro c hc
      rcases List.mem_cons.mp hc with hc | hc
      · exact hc ▸ le_of_lt (lt_of_lt_of_le h (ih y).1)
      · exact (ih y).2 c hc
    · simp only [bubbleMax, if_neg h]
      refine ⟨(ih x).1, ?_⟩
      intro c hc
      rcases List.mem_cons.mp hc with hc | hc
      · exact hc ▸ le_trans (le_of_not_lt h) (ih x).1
      · exact (ih x).2 c hc

theorem sortCommits_chain (l : List Commit) :
    List.Chain' (fun a b => b.date ≤ a.date) (sortCommits l) := by
  induction l using sortCommits.induct with
  | case1 => rw [sortCommits]; exact List.chain'_nil
  | case2 x xs ih =>
    rw [sortCommits]
    refine List.chain'_cons'.mpr ⟨?_, ih⟩
    intro b hb
    have hbmem : b ∈ sortCommits (bubbleMax x xs).2 := List.mem_of_mem_head? hb
    have : b ∈ (bubbleMax x xs).2 := (sortCommits_perm _).mem_iff.mp hbmem
    exact (bubbleMax_fst_max xs x).2 b this

theorem keepCommit_eq_true (fromDate toDate : Int) (e : Str) (r : RawCommit) :
    keepCommit fromDate toDate e r = true ↔
      fromDate ≤ r.authorWhen ∧ r.authorWhen ≤ toDate + oneDay ∧
        goEqualFold r.authorEmail e = true := by
  simp only [keepCommit, Bool.and_eq_true, Bool.not_eq_true', Bool.or_eq_false_iff,
    decide_eq_false_iff_not, not_lt]
  tauto

/-- The filtering predicate claimed by the spec: strict upper bound at
midnight of the day after `toDate`. -/
def claimC1Prop : Prop :=
  ∀ (walk : List RawCommit) (fromDate toDate : Int) (email : Str) (c : Commit),
    c ∈ getCommits walk fromDate toDate email ↔
      ∃ r ∈ walk, (fromDate ≤ r.authorWhen ∧ r.authorWhen < toDate + oneDay ∧
        goEqualFold r.authorEmail email = true) ∧ mkCommit r = c

/-- A commit authored exactly at midnight of the day after `toDate`. -/
def cexRaw : RawCommit :=
  { hash := ("aaaaaaaa").toList
    authorWhen := oneDay
    authorName := ("A").toList
    authorEmail := ("a").toList
    rawMessage := ("m").toList }

/-- C1: the claimed selection predicate is refuted by the code: with
`fromDate = toDate = 0`, the commit `cexRaw` authored exactly at
`toDate + 24h` is kept by `GetCommits` (the code drops a commit only when its
timestamp is strictly *after* `toDate + 24h`), while the claim requires its
exclusion. -/
theorem C1_counterexample : ¬ claimC1Prop := by
  intro h
  have hmem : mkCommit cexRaw ∈ getCommits [cexRaw] 0 0 (("a").toList) := by
    unfold getCommits
    rw [(sortCommits_perm _).mem_iff]
    decide
  obtain ⟨r, hr, hP, -⟩ :=
    (h [cexRaw] 0 0 (("a").toList) (mkCommit cexRaw)).mp hmem
  have hr' := List.mem_singleton.mp hr
  subst hr'
  exact absurd hP.2.1 (by decide)

/-- C1 (amended): a commit reachable from the branch is kept by `GetCommits`
iff `fromDate ≤ authorTimestamp ≤ toDate + 1 day` — the upper bound is
*inclusive*, so a commit timestamped exactly at midnight of the day after
`toDate` is kept — and its author email equals the given one
case-insensitively; commits by any other author are excluded regardless of
timestamp. -/
theorem C1_kept_iff (walk : List RawCommit) (fromDate toDate : Int) (email : Str)
    (c : Commit) :
    c ∈ getCommits walk fromDate toDate email ↔
      ∃ r ∈ walk, (fromDate ≤ r.authorWhen ∧ r.authorWhen ≤ toDate + oneDay ∧
        goEqualFold r.authorEmail email = true) ∧ mkCommit r = c := by
  unfold getCommits
  rw [(sortCommits_perm _).mem_iff]
  simp only [List.mem_map, List.mem_filter, keepCommit_eq_true]
  constructor
  · rintro ⟨r, ⟨hmem, hP⟩, hmk⟩
    exact ⟨r, hmem, hP, hmk⟩
  · rintro ⟨r, hmem, hP, hmk⟩
    exact ⟨r, ⟨hmem, hP⟩, hmk⟩

/-- C2: the list returned by `GetCommits` is ordered descending by author
timestamp: every adjacent pair is non-increasing, whatever order the
underlying log walk yields the commits in. -/
theorem C2_getCommits_sorted_descending (walk : List RawCommit)
    (fromDate toDate : Int) (email : Str) :
    List.Chain' (fun a b => b.date ≤ a.date)
      (getCommits walk fromDate toDate email) :=
  sortCommits_chain _

/-! ## Message splitting: `parseCommitMessage` against the spec's description

The spec describes the split in terms of the lines of the raw message: the
first non-blank line (trimmed) is the title, the later non-blank lines
(trimmed, joined by single spaces) are the description.  The code instead
trims the whole message first and then splits; the lemmas below show the two
agree, the crux being that trimming whole-message whitespace does not change
the collection of trimmed non-blank lines. -/

/-- The first line of `s` (the head chunk of the newline split). -/
def firstLine (s : Str) : Str := (splitNL s).headD []

/-- The lines of `s` after the first. -/
def restLines (s : Str) : List Str := (splitNL s).tail

/-- The trimmed non-blank lines of `s`. -/
def canonLines (s : Str) : List Str :=
  ((splitNL s).map trimSpace).filter (fun l => !l.isEmpty)

/-- The trimmed non-blank lines of `s` after the first line. -/
def filterRest (s : Str) : List Str :=
  ((restLines s).map trimSpace).filter (fun l => !l.isEmpty)

theorem splitNL_ne_nil (s : Str) : splitNL s ≠ [] := by
  cases s with
  | nil => simp [splitNL]
  | cons c cs =>
    by_cases h : c = '\n' <;> simp [splitNL, h]

theorem splitNL_eq_cons (s : Str) : splitNL s = firstLine s :: restLines s := by
  cases h : splitNL s with
  | nil => exact absurd h (splitNL_ne_nil s)
  | cons a l => simp [firstLine, restLines, h]

theorem firstLine_nil : firstLine [] = [] := rfl

theorem restLines_nil : restLines [] = [] := rfl

theorem firstLine_cons_nl (s : Str) : firstLine ('\n' :: s) = [] := by
  simp [firstLine, splitNL]

theorem restLines_cons_nl (s : Str) : restLines ('\n' :: s) = splitNL s := by
  simp [restLines, splitNL]

theorem firstLine_cons {c : Char} (h : c ≠ '\n') (s : Str) :
    firstLine (c :: s) = c :: firstLine s := by
  simp [firstLine, splitNL, h]

theorem restLines_cons {c : Char} (h : c ≠ '\n') (s : Str) :
    restLines (c :: s) = restLines s := by
  simp [restLines, splitNL, h]

theorem filterRest_cons_nl (s : Str) : filterRest ('\n' :: s) = canonLines s := by
  simp [filterRest, restLines_cons_nl, canonLines]

theorem filterRest_cons {c : Char} (h : c ≠ '\n') (s : Str) :
    filterRest (c :: s) = filterRest s := by
  simp [filterRest, restLines_cons h]

theorem canonLines_decomp (s : Str) :
    canonLines s =
      if (trimSpace (firstLine s)).isEmpty = true then filterRest s
      else trimSpace (firstLine s) :: filterRest s := by
  rw [canonLines, splitNL_eq_cons s, List.map_cons, List.filter_cons]
  by_cases h : (trimSpace (firstLine s)).isEmpty = true <;>
    simp [h, filterRest]

theorem trimLeft_cons_space {c : Char} (h : goIsSpace c = true) (s : Str) :
    trimLeft (c :: s) = trimLeft s := by
  simp [trimLeft, List.dropWhile_cons, h]

theorem trimLeft_cons_nonspace {c : Char} (h : goIsSpace c = false) (s : Str) :
    trimLeft (c :: s) = c :: s := by
  simp [trimLeft, List.dropWhile_cons, h]

theorem trimRight_cons_of_nil {s : Str} (h : trimRight s = []) (c : Char) :
    trimRight (c :: s) = if goIsSpace c then [] else [c] := by
  rw [trimRight, h]

theorem trimRight_cons_of_ne {s : Str} (h : trimRight s ≠ []) (c : Char) :
    trimRight (c :: s) = c :: trimRight s := by
  rw [trimRight]
  cases hr : trimRight s with
  | nil => exact absurd hr h
  | cons a r => rfl

theorem trimRight_cons_congr {a b : Str} (c : Char) (h : trimRight a = trimRight b) :
    trimRight (c :: a) = trimRight (c :: b) := by
  rw [trimRight, trimRight, h]

theorem trimRight_eq_nil_iff (s : Str) :
    trimRight s = [] ↔ ∀ c ∈ s, goIsSpace c = true := by
  induction s with
  | nil => simp [trimRight]
  | cons c cs ih =>
    constructor
    · intro h
      by_cases hr : trimRight cs = []
      · rw [trimRight_cons_of_nil hr] at h
        by_cases hc : goIsSpace c = true
        · intro a ha
          rcases List.mem_cons.mp ha with rfl | ha
          · exact hc
          · exact ih.mp hr a ha
        · simp [hc] at h
      · rw [trimRight_cons_of_ne hr] at h
        exact absurd h (by simp)
    · intro h
      have hcs : trimRight cs = [] := ih.mpr fun a ha => h a (List.mem_cons_of_mem c ha)
      rw [trimRight_cons_of_nil hcs, if_pos (h c (List.mem_cons_self c cs))]

theorem trimSpace_cons_space {c : Char} (h : goIsSpace c = true) (s : Str) :
    trimSpace (c :: s) = trimSpace s := by
  rw [trimSpace, trimSpace, trimLeft_cons_space h]

theorem trimSpace_eq_nil_iff (s : Str) :
    trimSpace s = [] ↔ ∀ c ∈ s, goIsSpace c = true := by
  induction s with
  | nil => simp [trimSpace, trimLeft, trimRight]
  | cons c cs ih =>
    by_cases hc : goIsSpace c = true
    · rw [trimSpace_cons_space hc]
      simp [hc, ih]
    · rw [trimSpace, trimLeft_cons_nonspace (by simpa using hc)]
      constructor
      · intro h
        have := (trimRight_eq_nil_iff (c :: cs)).mp h c (List.mem_cons_self c cs)
        exact absurd this hc
      · intro h
        exact absurd (h c (List.mem_cons_self c cs)) hc

theorem trimLeft_trimRight_comm (s : Str) :
    trimLeft (trimRight s) = trimRight (trimLeft s) := by
  induction s with
  | nil => rfl
  | cons c cs ih =>
    by_cases hc : goIsSpace c = true
    · rw [trimLeft_cons_space hc]
      by_cases hr : trimRight cs = []
      · rw [trimRight_cons_of_nil hr, if_pos hc, ← ih, hr]
      · rw [trimRight_cons_of_ne hr, trimLeft_cons_space hc, ih]
    · have hc' : goIsSpace c = false := by
        cases h' : goIsSpace c
        · rfl
        · exact absurd h' hc
      rw [trimLeft_cons_nonspace hc']
      by_cases hr : trimRight cs = []
      · rw [trimRight_cons_of_nil hr, if_neg hc]
        simp [trimLeft, List.dropWhile_cons, hc']
      · rw [trimRight_cons_of_ne hr, trimLeft_cons_nonspace hc']

theorem canonLines_cons_nl (s : Str) : canonLines ('\n' :: s) = canonLines s := by
  simp [canonLines, splitNL, trimSpace, trimLeft, trimRight]

theorem canonLines_cons_space {c : Char} (hc : goIsSpace c = true) (hnl : c ≠ '\n')
    (s : Str) : canonLines (c :: s) = canonLines s := by
  rw [canonLines_decomp (c :: s), canonLines_decomp s, firstLine_cons hnl,
    filterRest_cons hnl, trimSpace_cons_space hc]

theorem canonLines_allSpace {s : Str} (h : ∀ c ∈ s, goIsSpace c = true) :
    canonLines s = [] := by
  induction s with
  | nil => rfl
  | cons c cs ih =>
    have hcs : ∀ a ∈ cs, goIsSpace a = true := fun a ha => h a (List.mem_cons_of_mem c ha)
    by_cases hnl : c = '\n'
    · rw [hnl, canonLines_cons_nl]
      exact ih hcs
    · rw [canonLines_cons_space (h c (List.mem_cons_self c cs)) hnl]
      exact ih hcs

theorem canonLines_trimLeft (s : Str) : canonLines (trimLeft s) = canonLines s := by
  induction s with
  | nil => rfl
  | cons c cs ih =>
    by_cases hc : goIsSpace c = true
    · rw [trimLeft_cons_space hc, ih]
      by_cases hnl : c = '\n'
      · rw [hnl, canonLines_cons_nl]
      · rw [canonLines_cons_space hc hnl]
    · have hc' : goIsSpace c = false := by
        cases h' : goIsSpace c
        · rfl
        · exact absurd h' hc
      rw [trimLeft_cons_nonspace hc']

theorem canonLines_eq_nil_parts {s : Str} (h : canonLines s = []) :
    trimSpace (firstLine s) = [] ∧ filterRest s = [] := by
  rw [canonLines_decomp] at h
  by_cases he : (trimSpace (firstLine s)).isEmpty = true
  · rw [if_pos he] at h
    exact ⟨List.isEmpty_iff.mp he, h⟩
  · rw [if_neg he] at h
    exact absurd h (by simp)

theorem canonLines_of_components {a b : Str}
    (h1 : trimRight (firstLine a) = trimRight (firstLine b))
    (h2 : filterRest a = filterRest b) : canonLines a = canonLines b := by
  have hts : trimSpace (firstLine a) = trimSpace (firstLine b) := by
    have ha : trimSpace (firstLine a) = trimLeft (trimRight (firstLine a)) := by
      rw [trimSpace, trimLeft_trimRight_comm]
    have hb : trimSpace (firstLine b) = trimLeft (trimRight (firstLine b)) := by
      rw [trimSpace, trimLeft_trimRight_comm]
    rw [ha, hb, h1]
  rw [canonLines_decomp a, canonLines_decomp b, hts, h2]

theorem trimRight_components (s : Str) :
    trimRight (firstLine (trimRight s)) = trimRight (firstLine s) ∧
    filterRest (trimRight s) = filterRest s := by
  induction s with
  | nil => exact ⟨rfl, rfl⟩
  | cons d ds ih =>
    by_cases hnil : trimRight ds = []
    · have hsp : ∀ a ∈ ds, goIsSpace a = true := (trimRight_eq_nil_iff ds).mp hnil
      obtain ⟨hfl, hfr⟩ := canonLines_eq_nil_parts (canonLines_allSpace hsp)
      have hflsp : ∀ a ∈ firstLine ds, goIsSpace a = true :=
        (trimSpace_eq_nil_iff _).mp hfl
      by_cases hd : goIsSpace d = true
      · have h1 : trimRight (d :: ds) = [] := by
          rw [trimRight_cons_of_nil hnil, if_pos hd]
        rw [h1]
        by_cases hdn : d = '\n'
        · subst hdn
          refine ⟨by rw [firstLine_cons_nl, firstLine_nil], ?_⟩
          rw [filterRest_cons_nl, canonLines_allSpace hsp]
          rfl
        · constructor
          · rw [firstLine_cons hdn]
            have hall : ∀ a ∈ d :: firstLine ds, goIsSpace a = true := by
              intro a ha
              rcases List.mem_cons.mp ha with rfl | ha
              · exact hd
              · exact hflsp a ha
            rw [(trimRight_eq_nil_iff _).mpr hall]
            rfl
          · rw [filterRest_cons hdn, hfr]
            rfl
      · have h1 : trimRight (d :: ds) = [d] := by
          rw [trimRight_cons_of_nil hnil, if_neg hd]
        have hdn : d ≠ '\n' := by
          intro e
          rw [e] at hd
          exact hd (by decide)
        rw [h1]
        constructor
        · have h2 : trimRight (firstLine ds) = [] := (trimRight_eq_nil_iff _).mpr hflsp
          rw [firstLine_cons hdn, firstLine_cons hdn, firstLine_nil]
          exact trimRight_cons_congr d (by rw [h2]; rfl)
        · rw [filterRest_cons hdn, filterRest_cons hdn, hfr]
          rfl
    · have h1 : trimRight (d :: ds) = d :: trimRight ds := trimRight_cons_of_ne hnil d
      rw [h1]
      by_cases hdn : d = '\n'
      · subst hdn
        refine ⟨by rw [firstLine_cons_nl, firstLine_cons_nl], ?_⟩
        rw [filterRest_cons_nl, filterRest_cons_nl]
        exact canonLines_of_components ih.1 ih.2
      · constructor
        · rw [firstLine_cons hdn, firstLine_cons hdn]
          exact trimRight_cons_congr d ih.1
        · rw [filterRest_cons hdn, filterRest_cons hdn]
          exact ih.2

theorem canonLines_trimRight (s : Str) : canonLines (trimRight s) = canonLines s :=
  canonLines_of_components (trimRight_components s).1 (trimRight_components s).2

theorem canonLines_trimSpace (s : Str) : canonLines (trimSpace s) = canonLines s := by
  rw [trimSpace, canonLines_trimRight, canonLines_trimLeft]

/-- The message split described by the spec's words: the trimmed non-blank
lines of the raw message, the first of which is the title, the rest joined
with single spaces forming the description (a whitespace-only line counts as
empty, matching the claim's treatment of whitespace-only messages). -/
def specParse (m : Str) : Str × Str :=
  match canonLines m with
  | [] => ([], [])
  | t :: ts => (t, joinSpace ts)

theorem trimRight_head_eq {x : Str} {c : Char} {r : Str} (h : trimRight x = c :: r) :
    ∃ r', x = c :: r' := by
  cases x with
  | nil => exact absurd h (by simp [trimRight])
  | cons a x' =>
    refine ⟨x', ?_⟩
    by_cases ha : trimRight x' = []
    · rw [trimRight_cons_of_nil ha] at h
      by_cases hsp : goIsSpace a = true
      · rw [if_pos hsp] at h
        exact absurd h (by simp)
      · rw [if_neg hsp] at h
        injection h with h1 _
        rw [h1]
    · rw [trimRight_cons_of_ne ha] at h
      injection h with h1 _
      rw [h1]

theorem trimLeft_head_nonspace {x : Str} {c : Char} {r : Str}
    (h : trimLeft x = c :: r) : goIsSpace c = false := by
  induction x with
  | nil => exact absurd h (by simp [trimLeft])
  | cons a x' ih =>
    by_cases ha : goIsSpace a = true
    · rw [trimLeft_cons_space ha] at h
      exact ih h
    · have ha' : goIsSpace a = false := by
        cases h' : goIsSpace a
        · rfl
        · exact absurd h' ha
      rw [trimLeft_cons_nonspace ha'] at h
      injection h with h1 _
      rw [← h1]
      exact ha'

theorem trimSpace_head_nonspace {m : Str} {c : Char} {r : Str}
    (h : trimSpace m = c :: r) : goIsSpace c = false := by
  obtain ⟨r', hr'⟩ := trimRight_head_eq h
  exact trimLeft_head_nonspace hr'

theorem parse_eq_spec (m : Str) : parseCommitMessage m = specParse m := by
  have hcanon := canonLines_trimSpace m
  cases htm : trimSpace m with
  | nil =>
    have hc : canonLines m = [] := by
      rw [← hcanon, htm]
      rfl
    simp only [parseCommitMessage, specParse, htm, hc]
    rfl
  | cons c s' =>
    have hns : goIsSpace c = false := trimSpace_head_nonspace htm
    have hcn : c ≠ '\n' := by
      intro e
      rw [e] at hns
      exact absurd hns (by decide)
    have hne : trimSpace (firstLine (c :: s')) ≠ [] := by
      rw [firstLine_cons hcn]
      intro h0
      have := (trimSpace_eq_nil_iff _).mp h0 c (List.mem_cons_self c _)
      rw [hns] at this
      exact absurd this (by simp)
    have hcm : canonLines m = trimSpace (firstLine (c :: s')) :: filterRest (c :: s') := by
      rw [← hcanon, htm, canonLines_decomp]
      rw [if_neg (by simpa [List.isEmpty_iff] using hne)]
    simp only [parseCommitMessage, specParse, htm, hcm]
    rw [splitNL_eq_cons (c :: s')]
    rfl

/-- C3: `parseCommitMessage` returns as the title the (trimmed) first
non-blank line of the message and as the description the later non-blank
lines, each trimmed, joined with single spaces; a whitespace-only message
yields an empty title and description.  In particular the two concrete
examples of the spec, and the whitespace-only case, compute as claimed. -/
theorem C3_parseCommitMessage_correct :
    (∀ m : Str, parseCommitMessage m = specParse m) ∧
    parseCommitMessage (("Title\n\nBody line 1\n\nBody line 2").toList) =
      (("Title").toList, ("Body line 1 Body line 2").toList) ∧
    parseCommitMessage (("Solo title").toList) = (("Solo title").toList, []) ∧
    parseCommitMessage (("  \t \n ").toList) = ([], []) :=
  ⟨parse_eq_spec, by decide, by decide, by decide⟩

/-! ## Configuration (`internal/config`)

`float64` fields are modelled as rationals (finite values; the NaN/Inf
corners of IEEE floats are outside this model).  JSON files are modelled as
parsed JSON values: the byte-level (de)serialization is the external
`encoding/json` text layer, whose struct-decoding semantics — absent fields
untouched, unknown fields ignored, `null` a no-op, type mismatches an
error — is embedded below. -/

/-- `HeaderConfig`. -/
structure HeaderConfig where
  template : Str
  executorName : Str
  executorEmail : Str
  recipientName : Str
  location : Str
deriving DecidableEq, Repr

/-- `PDFConfig`; colors are RGB integer triples. -/
structure PDFConfig where
  marginTop : Rat
  marginBottom : Rat
  marginLeft : Rat
  marginRight : Rat
  fontFamily : Str
  fontSize : Rat
  headerColor : Int × Int × Int
  contentColor : Int × Int × Int
deriving DecidableEq, Repr

/-- `Config`. -/
structure Config where
  header : HeaderConfig
  pdf : PDFConfig
deriving DecidableEq, Repr

/-- The Go zero value of `HeaderConfig`. -/
def zeroHeaderConfig : HeaderConfig :=
  { template := [], executorName := [], executorEmail := [], recipientName := []
    location := [] }

/-- The Go zero value of `PDFConfig`. -/
def zeroPDFConfig : PDFConfig :=
  { marginTop := 0, marginBottom := 0, marginLeft := 0, marginRight := 0
    fontFamily := [], fontSize := 0, headerColor := (0, 0, 0)
    contentColor := (0, 0, 0) }

/-- The Go zero value of `Config`, the starting point of `json.Unmarshal`. -/
def zeroConfig : Config := { header := zeroHeaderConfig, pdf := zeroPDFConfig }

/-- `DefaultConfig`. -/
def defaultConfig : Config :=
  { header :=
      { template := ("Some City, \x7b\x7b.date_from\x7d\x7d - \x7b\x7b.date_to\x7d\x7d\nProtokół odbioru prac programistycznych\n\nWykonawca: \x7b\x7b.executor_name\x7d\x7d (\x7b\x7b.executor_email\x7d\x7d)\nOdbiorca: \x7b\x7b.recipient_name\x7d\x7d\n\nRepozytorium: \x7b\x7b.repository_name\x7d\x7d\n- Branch \x7b\x7b.branch_name\x7d\x7d\n\nLista commitów:").toList
        executorName := ("Some Programmer").toList
        executorEmail := ("jan.kowalski@comany.com").toList
        recipientName := ("CIA").toList
        location := ("Warsaw").toList }
    pdf :=
      { marginTop := 20, marginBottom := 20, marginLeft := 20, marginRight := 20
        fontFamily := ("Arial").toList, fontSize := 10
        headerColor := (0, 0, 0), contentColor := (50, 50, 50) } }

def templateEmptyMsg : Str := ("header template cannot be empty").toList

def fontSizeMsg : Str := ("font size must be positive").toList

def marginsMsg : Str := ("margins cannot be negative").toList

/-- `Validate`: three checks with early returns, first failure wins. -/
def validate (c : Config) : Except Str Unit :=
  if c.header.template = [] then .error templateEmptyMsg
  else if c.pdf.fontSize ≤ 0 then .error fontSizeMsg
  else if c.pdf.marginTop < 0 ∨ c.pdf.marginBottom < 0 ∨
          c.pdf.marginLeft < 0 ∨ c.pdf.marginRight < 0 then .error marginsMsg
  else .ok ()

/-- Parsed JSON values. -/
inductive Json where
  | null
  | bool (b : Bool)
  | num (q : Rat)
  | str (s : Str)
  | arr (elems : List Json)
  | obj (fields : List (Str × Json))

/-- Decode a JSON value into a Go `string` field holding `cur`. -/
def decodeStr (cur : Str) : Json → Except Str Str
  | Json.str s => .ok s
  | Json.null => .ok cur
  | _ => .error (("cannot unmarshal into string").toList)

/-- Decode a JSON value into a Go `float64` field holding `cur`. -/
def decodeFloat (cur : Rat) : Json → Except Str Rat
  | Json.num q => .ok q
  | Json.null => .ok cur
  | _ => .error (("cannot unmarshal into float64").toList)

/-- Decode a JSON value into a Go `int` field holding `cur`; fractional
numbers are a type error. -/
def decodeInt (cur : Int) : Json → Except Str Int
  | Json.num q => if q.den = 1 then .ok q.num else .error (("cannot unmarshal into int").toList)
  | Json.null => .ok cur
  | _ => .error (("cannot unmarshal into int").toList)

/-- Decode a JSON value into a `[3]int` field holding `cur`: positions are
filled from the JSON array, positions past its end are zeroed, extra JSON
elements are discarded. -/
def decodeColor (cur : Int × Int × Int) : Json → Except Str (Int × Int × Int)
  | Json.arr es => do
    let a ← (match es[0]? with | some j => decodeInt cur.1 j | none => Except.ok 0)
    let b ← (match es[1]? with | some j => decodeInt cur.2.1 j | none => Except.ok 0)
    let c ← (match es[2]? with | some j => decodeInt cur.2.2 j | none => Except.ok 0)
    .ok (a, b, c)
  | Json.null => .ok cur
  | _ => .error (("cannot unmarshal into array").toList)

/-- Apply one JSON object member to a `HeaderConfig` under its field tags;
unknown keys are ignored. -/
def decodeHeaderField (h : HeaderConfig) (key : Str) (v : Json) :
    Except Str HeaderConfig :=
  if key = ("template").toList then
    (decodeStr h.template v).map (fun s => { h with template := s })
  else if key = ("executor_name").toList then
    (decodeStr h.executorName v).map (fun s => { h with executorName := s })
  else if key = ("executor_email").toList then
    (decodeStr h.executorEmail v).map (fun s => { h with executorEmail := s })
  else if key = ("recipient_name").toList then
    (decodeStr h.recipientName v).map (fun s => { h with recipientName := s })
  else if key = ("location").toList then
    (decodeStr h.location v).map (fun s => { h with location := s })
  else .ok h

/-- Decode a JSON value into a `HeaderConfig` holding `h`. -/
def decodeHeader (h : HeaderConfig) : Json → Except Str HeaderConfig
  | Json.obj fs => fs.foldlM (fun acc kv => decodeHeaderField acc kv.1 kv.2) h
  | Json.null => .ok h
  | _ => .error (("cannot unmarshal into HeaderConfig").toList)

/-- Apply one JSON object member to a `PDFConfig` under its field tags;
unknown keys are ignored. -/
def decodePDFField (p : PDFConfig) (key : Str) (v : Json) : Except Str PDFConfig :=
  if key = ("margin_top").toList then
    (decodeFloat p.marginTop v).map (fun x => { p with marginTop := x })
  else if key = ("margin_bottom").toList then
    (decodeFloat p.marginBottom v).map (fun x => { p with marginBottom := x })
  else if key = ("margin_left").toList then
    (decodeFloat p.marginLeft v).map (fun x => { p with marginLeft := x })
  else if key = ("margin_right").toList then
    (decodeFloat p.marginRight v).map (fun x => { p with marginRight := x })
  else if key = ("font_family").toList then
    (decodeStr p.fontFamily v).map (fun s => { p with fontFamily := s })
  else if key = ("font_size").toList then
    (decodeFloat p.fontSize v).map (fun x => { p with fontSize := x })
  else if key = ("header_color").toList then
    (decodeColor p.headerColor v).map (fun x => { p with headerColor := x })
  else if key = ("content_color").toList then
    (decodeColor p.contentColor v).map (fun x => { p with contentColor := x })
  else .ok p

/-- Decode a JSON value into a `PDFConfig` holding `p`. -/
def decodePDF (p : PDFConfig) : Json → Except Str PDFConfig
  | Json.obj fs => fs.foldlM (fun acc kv => decodePDFField acc kv.1 kv.2) p
  | Json.null => .ok p
  | _ => .error (("cannot unmarshal into PDFConfig").toList)

/-- Apply one top-level JSON object member to a `Config`. -/
def decodeConfigField (c : Config) (key : Str) (v : Json) : Except Str Config :=
  if key = ("header").toList then
    (decodeHeader c.header v).map (fun h => { c with header := h })
  else if key = ("pdf").toList then
    (decodePDF c.pdf v).map (fun p => { c with pdf := p })
  else .ok c

/-- `json.Unmarshal(data, &config)` on a zero-valued `Config`: fields present
in the file are decoded over the zero value, absent fields stay at their
zero values. -/
def unmarshalConfig : Json → Except Str Config
  | Json.obj fs => fs.foldlM (fun acc kv => decodeConfigField acc kv.1 kv.2) zeroConfig
  | Json.null => .ok zeroConfig
  | _ => .error (("cannot unmarshal into Config").toList)

/-- `json.MarshalIndent` of a `HeaderConfig` at JSON-value granularity. -/
def marshalHeader (h : HeaderConfig) : Json :=
  Json.obj [((("template").toList), Json.str h.template),
            ((("executor_name").toList), Json.str h.executorName),
            ((("executor_email").toList), Json.str h.executorEmail),
            ((("recipient_name").toList), Json.str h.recipientName),
            ((("location").toList), Json.str h.location)]

/-- `json.MarshalIndent` of a `PDFConfig` at JSON-value granularity. -/
def marshalPDF (p : PDFConfig) : Json :=
  Json.obj [((("margin_top").toList), Json.num p.marginTop),
            ((("margin_bottom").toList), Json.num p.marginBottom),
            ((("margin_left").toList), Json.num p.marginLeft),
            ((("margin_right").toList), Json.num p.marginRight),
            ((("font_family").toList), Json.str p.fontFamily),
            ((("font_size").toList), Json.num p.fontSize),
            ((("header_color").toList),
              Json.arr [Json.num (p.headerColor.1 : Rat),
                Json.num (p.headerColor.2.1 : Rat), Json.num (p.headerColor.2.2 : Rat)]),
            ((("content_color").toList),
              Json.arr [Json.num (p.contentColor.1 : Rat),
                Json.num (p.contentColor.2.1 : Rat), Json.num (p.contentColor.2.2 : Rat)])]

/-- `json.MarshalIndent` of a `Config` at JSON-value granularity. -/
def marshalConfig (c : Config) : Json :=
  Json.obj [((("header").toList), marshalHeader c.header),
            ((("pdf").toList), marshalPDF c.pdf)]

/-- `Save` at JSON-value granularity: the value serialized into the config
file.  Directory creation, indentation and the byte-level write belong to
the external layers; finite floats and unicode strings marshal without
error. -/
def save (c : Config) : Json := marshalConfig c

/-- `Load`: an empty path yields the defaults; a missing file is an error;
otherwise the file's JSON value is decoded over the zero `Config` and the
result validated. -/
def load (configPath : Str) (file : Option Json) : Except Str Config :=
  if configPath = [] then .ok defaultConfig
  else
    match file with
    | none => .error ((("configuration file not found: ").toList) ++ configPath)
    | some j =>
      match unmarshalConfig j with
      | .error e => .error ((("failed to parse configuration file: ").toList) ++ e)
      | .ok c =>
        match validate c with
        | .error e => .error ((("invalid configuration: ").toList) ++ e)
        | .ok _ => .ok c

theorem validate_template_empty (c : Config) (h : c.header.template = []) :
    validate c = .error templateEmptyMsg := by
  unfold validate
  rw [if_pos h]

theorem validate_fontSize (c : Config) (ht : c.header.template ≠ [])
    (hf : c.pdf.fontSize ≤ 0) : validate c = .error fontSizeMsg := by
  unfold validate
  rw [if_neg ht, if_pos hf]

theorem validate_ok_iff (c : Config) :
    validate c = .ok () ↔
      c.header.template ≠ [] ∧ 0 < c.pdf.fontSize ∧ 0 ≤ c.pdf.marginTop ∧
      0 ≤ c.pdf.marginBottom ∧ 0 ≤ c.pdf.marginLeft ∧ 0 ≤ c.pdf.marginRight := by
  unfold validate
  split_ifs with h1 h2 h3
  · exact iff_of_false (by simp) (fun hR => absurd h1 hR.1)
  · exact iff_of_false (by simp) (fun hR => absurd hR.2.1 (not_lt.mpr h2))
  · refine iff_of_false (by simp) (fun hR => ?_)
    rcases h3 with h | h | h | h
    · exact absurd hR.2.2.1 (not_le.mpr h)
    · exact absurd hR.2.2.2.1 (not_le.mpr h)
    · exact absurd hR.2.2.2.2.1 (not_le.mpr h)
    · exact absurd hR.2.2.2.2.2 (not_le.mpr h)
  · push_neg at h3
    exact iff_of_true rfl ⟨h1, not_le.mp h2, h3.1, h3.2.1, h3.2.2.1, h3.2.2.2⟩

/-- A configuration violating both the template check and the margin check
(the font size is fine). -/
def multiViolationConfig : Config :=
  { header := zeroHeaderConfig
    pdf := { zeroPDFConfig with marginTop := -1, fontSize := 10 } }

/-- C9: refuted: `Validate` returns on the *first* failed check.  On a
configuration with an empty template and a negative top margin, the returned
error is exactly the template message, which is not the margins message and
carries no information about the margin violation — the error does not cover
all violations. -/
theorem C9_counterexample :
    multiViolationConfig.header.template = [] ∧
    multiViolationConfig.pdf.marginTop < 0 ∧
    validate multiViolationConfig = .error templateEmptyMsg ∧
    templateEmptyMsg ≠ marginsMsg :=
  ⟨rfl, by decide, rfl, by decide⟩

/-- C9 (amended): `Validate` reports exactly one violation, the first in
check order (empty template, then non-positive font size, then negative
margins); it succeeds iff no check fails.  A configuration with several
violations gets only the first check's error. -/
theorem C9_validate_first_violation (c : Config) :
    (validate c = .ok () ↔
      c.header.template ≠ [] ∧ 0 < c.pdf.fontSize ∧ 0 ≤ c.pdf.marginTop ∧
      0 ≤ c.pdf.marginBottom ∧ 0 ≤ c.pdf.marginLeft ∧ 0 ≤ c.pdf.marginRight) ∧
    (c.header.template = [] → validate c = .error templateEmptyMsg) ∧
    (c.header.template ≠ [] → c.pdf.fontSize ≤ 0 → validate c = .error fontSizeMsg) :=
  ⟨validate_ok_iff c, validate_template_empty c, validate_fontSize c⟩

/-- Witness for `C9_validate_first_violation` at the doubly violating
configuration: only the template error is reported. -/
theorem C9_validate_first_violation_witness :
    validate multiViolationConfig = .error templateEmptyMsg :=
  (C9_validate_first_violation multiViolationConfig).2.1 rfl

theorem unmarshal_marshal (c : Config) : unmarshalConfig (marshalConfig c) = .ok c := rfl

/-- C8: saving a configuration that passes `Validate` and loading it back
succeeds and returns a field-for-field equal configuration: decoding the
marshalled JSON value over the zero `Config` restores every field, and the
validation performed by `Load` passes by hypothesis. -/
theorem C8_save_load_roundtrip (c : Config) (path : Str) (hpath : path ≠ [])
    (hv : validate c = .ok ()) :
    load path (some (save c)) = .ok c := by
  have h1 : load path (some (save c)) =
      (match unmarshalConfig (save c) with
        | .error e => .error ((("failed to parse configuration file: ").toList) ++ e)
        | .ok c' =>
          match validate c' with
          | .error e => .error ((("invalid configuration: ").toList) ++ e)
          | .ok _ => .ok c') := by
    unfold load
    rw [if_neg hpath]
  rw [h1, save, unmarshal_marshal]
  show (match validate c with
    | .error e => Except.error ((("invalid configuration: ").toList) ++ e)
    | .ok _ => Except.ok c) = Except.ok c
  rw [hv]

/-- Witness for `C8_save_load_roundtrip` at the default configuration. -/
theorem C8_save_load_roundtrip_witness :
    load (("config.json").toList) (some (save defaultConfig)) = .ok defaultConfig :=
  C8_save_load_roundtrip defaultConfig (("config.json").toList) (by decide) rfl

/-- A configuration file setting only the `header` sub-object. -/
def innerHeaderJson : Json :=
  Json.obj [((("template").toList), Json.str (("T").toList)),
            ((("executor_name").toList), Json.str (("E").toList)),
            ((("executor_email").toList), Json.str (("e@x").toList)),
            ((("recipient_name").toList), Json.str (("R").toList)),
            ((("location").toList), Json.str (("L").toList))]

def headerOnlyJson : Json := Json.obj [((("header").toList), innerHeaderJson)]

/-- C7: refuted: `Load` does not start from `DefaultConfig` when decoding a
file — it unmarshals over a zero-valued `Config` — so a file that sets only
the header sub-object leaves the PDF fields at their zero values, and
`Load` then *fails* validation (the zero font size is not positive) instead
of loading successfully with the default PDF styling. -/
theorem C7_counterexample :
    load (("cfg.json").toList) (some headerOnlyJson) =
      .error ((("invalid configuration: ").toList) ++ fontSizeMsg) := rfl

/-- C7 (amended): fields absent from the configuration file are left at Go
zero values, not at the `DefaultConfig` values: decoding any file whose only
top-level member is `header` yields a configuration whose PDF sub-object is
the zero value, and (whenever the decoded template is non-empty, so that the
template check passes) `Load` rejects the file because the zero font size is
not positive.  Defaults apply only when no config path is given. -/
theorem C7_zero_values (jh : Json) (hh : HeaderConfig)
    (hd : decodeHeader zeroHeaderConfig jh = .ok hh)
    (ht : hh.template ≠ []) :
    unmarshalConfig (Json.obj [((("header").toList), jh)]) =
      .ok { header := hh, pdf := zeroPDFConfig } ∧
    load (("cfg.json").toList) (some (Json.obj [((("header").toList), jh)])) =
      .error ((("invalid configuration: ").toList) ++ fontSizeMsg) ∧
    load [] none = .ok defaultConfig := by
  have hu : unmarshalConfig (Json.obj [((("header").toList), jh)]) =
      Except.bind (Except.map (fun x => ({ header := x, pdf := zeroPDFConfig } : Config))
        (decodeHeader zeroHeaderConfig jh)) Except.pure := rfl
  have hu2 : unmarshalConfig (Json.obj [((("header").toList), jh)]) =
      .ok { header := hh, pdf := zeroPDFConfig } := by
    rw [hu, hd]
    rfl
  refine ⟨hu2, ?_, rfl⟩
  have hv : validate { header := hh, pdf := zeroPDFConfig } = .error fontSizeMsg :=
    validate_fontSize _ ht le_rfl
  have h1 : load (("cfg.json").toList) (some (Json.obj [((("header").toList), jh)])) =
      (match unmarshalConfig (Json.obj [((("header").toList), jh)]) with
        | .error e => .error ((("failed to parse configuration file: ").toList) ++ e)
        | .ok c' =>
          match validate c' with
          | .error e => .error ((("invalid configuration: ").toList) ++ e)
          | .ok _ => .ok c') := by
    unfold load
    rw [if_neg (by decide : ¬((("cfg.json").toList : Str) = []))]
  rw [h1, hu2]
  show (match validate ({ header := hh, pdf := zeroPDFConfig } : Config) with
    | .error e => Except.error ((("invalid configuration: ").toList) ++ e)
    | .ok _ => Except.ok ({ header := hh, pdf := zeroPDFConfig } : Config)) =
    Except.error ((("invalid configuration: ").toList) ++ fontSizeMsg)
  rw [hv]

/-- Witness for `C7_zero_values` at the concrete header-only file. -/
theorem C7_zero_values_witness :
    unmarshalConfig headerOnlyJson =
      .ok { header :=
              { template := ("T").toList, executorName := ("E").toList
                executorEmail := ("e@x").toList, recipientName := ("R").toList
                location := ("L").toList }
            pdf := zeroPDFConfig } ∧
    load (("cfg.json").toList) (some headerOnlyJson) =
      .error ((("invalid configuration: ").toList) ++ fontSizeMsg) ∧
    load [] none = .ok defaultConfig :=
  C7_zero_values innerHeaderJson _ rfl (by decide)

/-! ## Report renderer (`internal/generator`)

The gofpdf layer is deep-embedded: the renderer emits a list of layout
operations (`Op`), and the page-break pagination, string-width queries and
the final file write are the external library's concern.  The unused title
centering offset (`xPos`, computed from `GetStringWidth` and the margins but
never applied) is a pure query and emits nothing. -/

/-- `time.Time.Format("2006-01-02")` needs the civil date of the timestamp:
days-from-epoch to (year, month, day), the standard civil-from-days
computation with C-style truncating division. -/
def civilFromDays (z0 : Int) : Int × Nat × Nat :=
  let z := z0 + 719468
  let era := (if 0 ≤ z then z else z - 146096).tdiv 146097
  let doe := (z - era * 146097).toNat
  let yoe := (doe - doe / 1460 + doe / 36524 - doe / 146096) / 365
  let doy := doe - (365 * yoe + yoe / 4 - yoe / 100)
  let mp := (5 * doy + 2) / 153
  let d := doy - (153 * mp + 2) / 5 + 1
  let m := if mp < 10 then mp + 3 else mp - 9
  (era * 400 + (yoe : Int) + (if m ≤ 2 then 1 else 0), m, d)

def pad2 (n : Nat) : Str :=
  if n < 10 then '0' :: (toString n).toList else (toString n).toList

def pad4 (n : Nat) : Str :=
  if n < 10 then '0' :: '0' :: '0' :: (toString n).toList
  else if n < 100 then '0' :: '0' :: (toString n).toList
  else if n < 1000 then '0' :: (toString n).toList
  else (toString n).toList

/-- `t.Format("2006-01-02")` (UTC). -/
def formatYMD (t : Int) : Str :=
  let ymd := civilFromDays (t.fdiv oneDay)
  pad4 ymd.1.toNat ++ '-' :: (pad2 ymd.2.1 ++ '-' :: pad2 ymd.2.2)

/-- `t.Format("2006-01-02 15:04:05")` (UTC). -/
def formatDateTime (t : Int) : Str :=
  let secs := (t.emod oneDay).toNat / 1000000000
  formatYMD t ++ ' ' ::
    (pad2 (secs / 3600) ++ ':' :: (pad2 (secs % 3600 / 60) ++ ':' :: pad2 (secs % 60)))

/-- `fmt.Sprintf` of a count. -/
def goItoa (n : Nat) : Str := (toString n).toList

/-- The gofpdf operations the renderer emits, in emission order.  `CellFormat`
keeps the arguments the code passes (width, height, text, border, line
advance, alignment, fill); the constant trailing link arguments are dropped. -/
inductive Op where
  | addFont (family style file : Str)
  | setFont (family style : Str) (size : Rat)
  | addPage
  | setMargins (left top right : Rat)
  | setAutoPageBreak (auto : Bool) (margin : Rat)
  | setFillColor (r g b : Int)
  | setTextColor (r g b : Int)
  | cell (w h : Rat) (txt : Str)
  | cellFormat (w h : Rat) (txt border : Str) (ln : Int) (align : Str) (fill : Bool)
  | multiCell (w h : Rat) (txt border align : Str) (fill : Bool)
  | ln (h : Rat)
deriving DecidableEq, Repr

def dejavuFam : Str := ("DejaVu").toList

def styleNone : Str := []

def styleB : Str := ("B").toList

def styleI : Str := ("I").toList

/-- `ReportData`. -/
structure ReportData where
  config : Config
  repositoryName : Str
  repositoryPath : Str
  branchName : Str
  authorEmail : Str
  dateFrom : Int
  dateTo : Int
  commits : List Commit

/-- The fixed placeholder map built by `generateHeader`. -/
def templateData (data : ReportData) : List (Str × Str) :=
  [((("executor_name").toList), data.config.header.executorName),
   ((("executor_email").toList), data.config.header.executorEmail),
   ((("recipient_name").toList), data.config.header.recipientName),
   ((("repository_name").toList), data.repositoryName),
   ((("repository_path").toList), data.repositoryPath),
   ((("branch_name").toList), data.branchName),
   ((("date_from").toList), formatYMD data.dateFrom),
   ((("date_to").toList), formatYMD data.dateTo)]

def noValueStr : Str := ("<no value>").toList

/-- Key lookup during template execution.  The templates are executed with
`Option("missingkey=zero")` over a `map[string]interface\x7b\x7d`; for a missing
key the zero value of the element type is a nil interface, which the
pipeline's dig-down unwraps to an invalid value, printed by text/template as
the literal `<no value>` (it is not an error and not the empty string). -/
def lookupKey (m : List (Str × Str)) (k : Str) : Str :=
  match m.find? (fun p => p.1 == k) with
  | some p => p.2
  | none => noValueStr

/-- Go template field-name characters (ASCII granularity). -/
def isIdentChar (c : Char) : Bool := c.isAlphanum || c == '_'

/-- Whitespace inside a template action. -/
def isActSpace (c : Char) : Bool := c == ' ' || c == '\t' || c == '\r' || c == '\n'

def badActionMsg : Str := ("template: unexpected character in action").toList

def unclosedMsg : Str := ("template: unclosed action").toList

/-- Scanner state for template execution: plain text, a pending single
brace, the inside of an action before / at / after the `.field`, and the
closing-delimiter check. -/
inductive TState where
  | text
  | brace
  | actStart
  | ident (acc : Str)
  | afterIdent (k : Str)
  | close (k : Str)

/-- Execution of a parsed Go template over a string map, for the
`\x7b\x7b.field\x7d\x7d` action subset these templates use: literal text is copied,
`\x7b\x7b` opens an action holding a single dotted field name (surrounding spaces
allowed) closed by `\x7d\x7d`, and the field's value — `<no value>` when the key
is missing — is substituted.  Malformed actions are reported as errors, as
`template.Parse` would refuse them. -/
def renderRun (m : List (Str × Str)) : TState → Str → Except Str Str
  | .text, [] => .ok []
  | .text, c :: cs =>
    if c = '\x7b' then renderRun m .brace cs
    else (renderRun m .text cs).map (fun t => c :: t)
  | .brace, [] => .ok ['\x7b']
  | .brace, c :: cs =>
    if c = '\x7b' then renderRun m .actStart cs
    else (renderRun m .text cs).map (fun t => '\x7b' :: c :: t)
  | .actStart, [] => .error unclosedMsg
  | .actStart, c :: cs =>
    if isActSpace c then renderRun m .actStart cs
    else if c = '.' then renderRun m (.ident []) cs
    else .error badActionMsg
  | .ident _, [] => .error unclosedMsg
  | .ident acc, c :: cs =>
    if isIdentChar c then renderRun m (.ident (acc ++ [c])) cs
    else if c = '\x7d' then
      (if acc = [] then .error badActionMsg else renderRun m (.close acc) cs)
    else if isActSpace c then
      (if acc = [] then .error badActionMsg else renderRun m (.afterIdent acc) cs)
    else .error badActionMsg
  | .afterIdent _, [] => .error unclosedMsg
  | .afterIdent k, c :: cs =>
    if isActSpace c then renderRun m (.afterIdent k) cs
    else if c = '\x7d' then renderRun m (.close k) cs
    else .error badActionMsg
  | .close _, [] => .error unclosedMsg
  | .close k, c :: cs =>
    if c = '\x7d' then (renderRun m .text cs).map (fun t => lookupKey m k ++ t)
    else .error badActionMsg

/-- `template.New(..).Option("missingkey=zero").Parse(seg)` followed by
`Execute` against the placeholder map. -/
def renderTemplate (m : List (Str × Str)) (s : Str) : Except Str Str :=
  renderRun m .text s

/-- `generateHeader`: split the template into the date/location line, the
title line and the remainder; expand the first and the remainder against the
placeholder map; place the date line, then the title line — verbatim, the
code passes `titleLine` to `Cell` without template expansion (its centering
offset is computed but never used) — then the remainder as a wrapped block. -/
def generateHeader (data : ReportData) : Except Str (List Op) :=
  match splitNL data.config.header.template with
  | l0 :: l1 :: rest =>
    match renderTemplate (templateData data) l0 with
    | .error e => .error ((("failed to execute date template: ").toList) ++ e)
    | .ok dateText =>
      match renderTemplate (templateData data) (joinNL rest) with
      | .error e => .error ((("failed to execute rest of template: ").toList) ++ e)
      | .ok restText =>
        .ok [Op.setFont dejavuFam styleNone 11,
             Op.cell 0 10 dateText, Op.ln 12,
             Op.setFont dejavuFam styleB 16,
             Op.cell 0 8 l1, Op.ln 15,
             Op.setFont dejavuFam styleNone 11,
             Op.multiCell 0 7 restText [] (("L").toList) false,
             Op.ln 5]
  | _ => .error (("invalid template format: not enough lines").toList)

def noCommitsMsg : Str := ("Brak commitów w podanym okresie.").toList

/-- The table body: one row per commit, fill shade alternating by index
parity, with date, short SHA, and the title/description joined by a line
break. -/
def commitRows : Nat → List Commit → List Op
  | _, [] => []
  | i, c :: cs =>
    (if i % 2 = 1 then Op.setFillColor 245 245 245 else Op.setFillColor 255 255 255) ::
    Op.cellFormat 30 7 (formatYMD c.date) (("1").toList) 0 (("C").toList) true ::
    Op.cellFormat 25 7 c.sha (("1").toList) 0 (("C").toList) true ::
    Op.multiCell 0 7 (c.message ++ '\n' :: c.description) (("1").toList) (("L").toList) false ::
    commitRows (i + 1) cs

/-- The summary line carrying the total commit count. -/
def summaryCountCell (n : Nat) : Op :=
  Op.cell 0 6 ((("Łączna liczba commitów: ").toList) ++ goItoa n)

/-- `generateCommits`: on an empty list, the italic placeholder line and an
immediate return; otherwise the table header, the rows, and the summary
block with the count, author, period and generation-timestamp footer. -/
def generateCommits (commits : List Commit) (authorEmail : Str)
    (dateFrom dateTo now : Int) : Except Str (List Op) :=
  if commits.isEmpty then
    .ok [Op.setFont dejavuFam styleI 11, Op.cell 0 6 noCommitsMsg]
  else
    .ok ([Op.setFont dejavuFam styleB 10,
          Op.setFillColor 220 220 220,
          Op.cellFormat 30 8 (("Data").toList) (("1").toList) 0 (("C").toList) true,
          Op.cellFormat 25 8 (("SHA").toList) (("1").toList) 0 (("C").toList) true,
          Op.cellFormat 0 8 (("Opis").toList) (("1").toList) 1 (("C").toList) true,
          Op.setFont dejavuFam styleNone 10] ++
         commitRows 0 commits ++
         [Op.ln 8, Op.setFont dejavuFam styleB 11,
          Op.cell 0 8 (("Podsumowanie:").toList), Op.ln 8,
          Op.setFont dejavuFam styleNone 10,
          summaryCountCell commits.length, Op.ln 6,
          Op.cell 0 6 ((("Autor: ").toList) ++ authorEmail), Op.ln 6,
          Op.cell 0 6 ((("Okres: ").toList) ++ formatYMD dateFrom ++
            ((" - ").toList) ++ formatYMD dateTo), Op.ln 10,
          Op.setFont dejavuFam styleI 8, Op.setTextColor 120 120 120,
          Op.cell 0 4 ((("Raport wygenerowany: ").toList) ++ formatDateTime now)])

/-- `Generate`: register the three DejaVu fonts, set the hard-coded base
font, page, margins and page-break margin, then the header and the commits
section.  The font directory (derived from the executable path) and the
output path feed the external font loading and file write and do not affect
the emitted operations. -/
def generate (data : ReportData) (outputPath exeDir : Str) (now : Int) :
    Except Str (List Op) :=
  match generateHeader data with
  | .error e => .error e
  | .ok hops =>
    match generateCommits data.commits data.authorEmail data.dateFrom data.dateTo now with
    | .error e => .error e
    | .ok cops =>
      .ok ([Op.addFont dejavuFam styleNone (("DejaVuSans.ttf").toList),
            Op.addFont dejavuFam styleB (("DejaVuSans-Bold.ttf").toList),
            Op.addFont dejavuFam styleI (("DejaVuSans-Oblique.ttf").toList),
            Op.setFont dejavuFam styleNone 11,
            Op.addPage,
            Op.setMargins 20 20 20,
            Op.setAutoPageBreak true 20] ++ hops ++ cops)

/-- The behaviour claimed for the empty-list path: the placeholder line is
emitted and the summary block is still emitted with a count of zero. -/
def claimC4Prop : Prop :=
  ∀ (authorEmail : Str) (dateFrom dateTo now : Int),
    ∃ ops, generateCommits [] authorEmail dateFrom dateTo now = .ok ops ∧
      Op.cell 0 6 noCommitsMsg ∈ ops ∧ summaryCountCell 0 ∈ ops

/-- C4: refuted: on an empty commit list `generateCommits` returns right
after the italic placeholder line, so no summary block (in particular no
zero-count line) is emitted. -/
theorem C4_counterexample : ¬ claimC4Prop := by
  intro h
  obtain ⟨ops, hops, -, hsum⟩ := h [] 0 0 0
  have hcalc : generateCommits [] [] 0 0 0 =
      .ok [Op.setFont dejavuFam styleI 11, Op.cell 0 6 noCommitsMsg] := rfl
  rw [hcalc] at hops
  injection hops with hops
  rw [← hops] at hsum
  exact absurd hsum (by decide)

/-- C4 (amended): on an empty commit list the renderer emits exactly the
single italic placeholder line and stops — no table header, no rows and no
summary block — and returns no error on this path. -/
theorem C4_empty_placeholder_only (authorEmail : Str) (dateFrom dateTo now : Int) :
    generateCommits [] authorEmail dateFrom dateTo now =
      .ok [Op.setFont dejavuFam styleI 11, Op.cell 0 6 noCommitsMsg] := rfl

/-- The behaviour claimed for the title line: it is template-expanded like
the other two segments before being placed. -/
def claimC5Prop : Prop :=
  ∀ (data : ReportData) (l0 l1 : Str) (rest : List Str) (ops : List Op),
    splitNL data.config.header.template = l0 :: l1 :: rest →
    generateHeader data = .ok ops →
    ∃ t, renderTemplate (templateData data) l1 = .ok t ∧ Op.cell 0 8 t ∈ ops

/-- Report data whose template's second (title) line is a placeholder. -/
def cexHeaderData : ReportData :=
  { config :=
      { header :=
          { zeroHeaderConfig with template := ("A\n\x7b\x7b.branch_name\x7d\x7d\nC").toList },
        pdf := zeroPDFConfig },
    repositoryName := ("repo").toList,
    repositoryPath := ("/r").toList,
    branchName := ("main").toList,
    authorEmail := ("a").toList,
    dateFrom := 0,
    dateTo := 0,
    commits := [] }

/-- The operations `generateHeader` emits for `cexHeaderData`: the title
cell carries the raw placeholder text. -/
def cexHeaderOps : List Op :=
  [Op.setFont dejavuFam styleNone 11,
   Op.cell 0 10 (("A").toList), Op.ln 12,
   Op.setFont dejavuFam styleB 16,
   Op.cell 0 8 (("\x7b\x7b.branch_name\x7d\x7d").toList), Op.ln 15,
   Op.setFont dejavuFam styleNone 11,
   Op.multiCell 0 7 (("C").toList) [] (("L").toList) false,
   Op.ln 5]

/-- C5: refuted: the title line is *not* template-expanded — with a
placeholder as the title line, the emitted title cell holds the raw
`\x7b\x7b.branch_name\x7d\x7d` text, not its expansion `main`. -/
theorem C5_counterexample : ¬ claimC5Prop := by
  intro h
  obtain ⟨t, ht, hmem⟩ := h cexHeaderData (("A").toList)
    (("\x7b\x7b.branch_name\x7d\x7d").toList) [(("C").toList)] cexHeaderOps (by decide) rfl
  have h2 : renderTemplate (templateData cexHeaderData)
      (("\x7b\x7b.branch_name\x7d\x7d").toList) = .ok (("main").toList) := rfl
  rw [h2] at ht
  injection ht with ht
  rw [← ht] at hmem
  exact absurd hmem (by decide)

theorem generateHeader_ok_shape (data : ReportData) (ops : List Op)
    (hok : generateHeader data = .ok ops) :
    ∃ l0 l1 rest dateText restText,
      splitNL data.config.header.template = l0 :: l1 :: rest ∧
      renderTemplate (templateData data) l0 = .ok dateText ∧
      renderTemplate (templateData data) (joinNL rest) = .ok restText ∧
      ops = [Op.setFont dejavuFam styleNone 11,
             Op.cell 0 10 dateText, Op.ln 12,
             Op.setFont dejavuFam styleB 16,
             Op.cell 0 8 l1, Op.ln 15,
             Op.setFont dejavuFam styleNone 11,
             Op.multiCell 0 7 restText [] (("L").toList) false,
             Op.ln 5] := by
  unfold generateHeader at hok
  split at hok
  case _ x l0 l1 rest heq =>
    split at hok
    case _ x0 e h0 => exact absurd hok (by simp)
    case _ x0 dateText h0 =>
      split at hok
      case _ x1 e h1 => exact absurd hok (by simp)
      case _ x1 restText h1 =>
        injection hok with hok
        exact ⟨l0, l1, rest, dateText, restText, heq, h0, h1, hok.symm⟩
  case _ => exact absurd hok (by simp)

/-- C5 (amended): the title line — the second line of the header template —
is placed on the page verbatim, without template expansion; only the first
line and the remainder of the template are expanded against the placeholder
map. -/
theorem C5_title_verbatim (data : ReportData) (l0 l1 : Str) (rest : List Str)
    (ops : List Op) (hsplit : splitNL data.config.header.template = l0 :: l1 :: rest)
    (hok : generateHeader data = .ok ops) :
    Op.cell 0 8 l1 ∈ ops := by
  obtain ⟨l0', l1', rest', dateText, restText, hsplit', -, -, hops⟩ :=
    generateHeader_ok_shape data ops hok
  rw [hsplit] at hsplit'
  injection hsplit' with h0 h1
  injection h1 with h1 h2
  rw [hops, ← h1]
  simp

/-- Witness for `C5_title_verbatim` at the concrete data with a placeholder
title line. -/
theorem C5_title_verbatim_witness :
    Op.cell 0 8 (("\x7b\x7b.branch_name\x7d\x7d").toList) ∈ cexHeaderOps :=
  C5_title_verbatim cexHeaderData (("A").toList) (("\x7b\x7b.branch_name\x7d\x7d").toList)
    [(("C").toList)] cexHeaderOps (by decide) rfl

/-- The behaviour claimed for missing placeholder keys: expansion to the
empty string. -/
def claimC6Prop : Prop :=
  ∀ (data : ReportData) (k : Str), k ≠ [] → (∀ c ∈ k, isIdentChar c = true) →
    (templateData data).find? (fun p => p.1 == k) = none →
    renderTemplate (templateData data)
      ('\x7b' :: '\x7b' :: '.' :: (k ++ ('\x7d' :: '\x7d' :: []))) = .ok []

/-- C6: refuted: a placeholder whose key is not in the fixed set expands to
the literal text `<no value>`, not to the empty string (`missingkey=zero`
over a `map[string]interface\x7b\x7d` prints the nil-interface zero value as
`<no value>`).  Execution still does not error. -/
theorem C6_counterexample : ¬ claimC6Prop := by
  intro h
  have h1 := h cexHeaderData (("unknown").toList) (by decide) (by decide) (by decide)
  have h2 : renderTemplate (templateData cexHeaderData)
      ('\x7b' :: '\x7b' :: '.' :: ((("unknown").toList) ++ ('\x7d' :: '\x7d' :: []))) =
      .ok noValueStr := rfl
  rw [h2] at h1
  injection h1 with h1
  exact absurd h1.symm (by decide)

theorem renderRun_ident (m : List (Str × Str)) (k : Str) (acc : Str)
    (hk : ∀ c ∈ k, isIdentChar c = true) (hne : acc ++ k ≠ []) :
    renderRun m (.ident acc) (k ++ ('\x7d' :: '\x7d' :: [])) =
      .ok (lookupKey m (acc ++ k)) := by
  induction k generalizing acc with
  | nil =>
    show (if acc = [] then Except.error badActionMsg
          else renderRun m (TState.close acc) ('\x7d' :: [])) =
      Except.ok (lookupKey m (acc ++ []))
    rw [if_neg (by simpa using hne)]
    show Except.ok (lookupKey m acc ++ []) = Except.ok (lookupKey m (acc ++ []))
    simp
  | cons c k' ih =>
    have hc : isIdentChar c = true := hk c (List.mem_cons_self c k')
    have ih' := ih (acc ++ [c]) (fun a ha => hk a (List.mem_cons_of_mem c ha)) (by simp)
    rw [List.append_assoc, List.singleton_append] at ih'
    simp only [List.cons_append, renderRun]
    rw [if_pos hc]
    exact ih'

/-- C6 (amended): during header rendering, a placeholder whose key is not in
the fixed placeholder map expands to the literal text `<no value>` — not the
empty string — and template execution never errors on account of the
missing key. -/
theorem C6_missing_key_no_value (m : List (Str × Str)) (k : Str) (hne : k ≠ [])
    (hk : ∀ c ∈ k, isIdentChar c = true)
    (hmiss : m.find? (fun p => p.1 == k) = none) :
    renderTemplate m ('\x7b' :: '\x7b' :: '.' :: (k ++ ('\x7d' :: '\x7d' :: []))) =
      .ok noValueStr := by
  have h1 : renderTemplate m ('\x7b' :: '\x7b' :: '.' :: (k ++ ('\x7d' :: '\x7d' :: []))) =
      renderRun m (.ident []) (k ++ ('\x7d' :: '\x7d' :: [])) := rfl
  rw [h1, renderRun_ident m k [] hk (by simpa using hne)]
  unfold lookupKey
  rw [List.nil_append, hmiss]

/-- Witness for `C6_missing_key_no_value` at the concrete placeholder map of
`cexHeaderData` and the key `unknown`. -/
theorem C6_missing_key_no_value_witness :
    renderTemplate (templateData cexHeaderData)
      ('\x7b' :: '\x7b' :: '.' :: ((("unknown").toList) ++ ('\x7d' :: '\x7d' :: []))) =
      .ok noValueStr :=
  C6_missing_key_no_value (templateData cexHeaderData) (("unknown").toList)
    (by decide) (by decide) (by decide)

/-- C10: the generated operation stream is independent of the PDF styling
sub-configuration and of the header `Location` field: replacing `Config.PDF`
wholesale and the `Location` value changes nothing, because margins, fonts,
sizes and colors are hard-coded in the generator and `Location` is never
read. -/
theorem C10_output_independent_of_styling (data : ReportData) (p : PDFConfig)
    (loc : Str) (outputPath exeDir : Str) (now : Int) :
    generate
      { data with
        config :=
          { data.config with
            pdf := p,
            header := { data.config.header with location := loc } } }
      outputPath exeDir now =
      generate data outputPath exeDir now := rfl

end GitReport
